import Mathlib

/-!
Shallow embedding of the name-resolution and score-aggregation core of
`src/polla_champions.py`: the functions `norm` (line 72), `best_match`
(lines 76-88) and `calcular_ranking` (lines 234-271), together with the
configuration tables `ALIASES` (lines 55-67) and `JUGADORES` (lines 41-52).

Modelling choices, recorded once here:

* Python module globals read by the code (`process` — `None` when the
  rapidfuzz library is missing — and `ALIASES`) become explicit parameters
  (`proc`, `aliases`); the source values are provided as constants.
* `pandas.DataFrame` inputs/outputs become lists: the standings frame with
  its `Team` and `Pts` columns becomes `List (String × Int)`; a ranking row
  additionally records the intermediate per-team data (`best`, `score`,
  `pts`) computed by the loop body, of which the dataframe columns
  (`Jugador`, `Equipo 1`, `Equipo 2`, `Total Pts`) are projections.
* Python exceptions (the `eq1, eq2 = equipos` unpacking `ValueError`, and
  the pandas `KeyError` described at `calcular_ranking` below) become
  `Except String`.
* `re.sub(r"\W+", "", s)` removes the characters outside Unicode `\w`.
  Every character above ASCII occurring in this program's data is a letter,
  hence a `\w` character, so `wordChar` keeps all of them; `str.lower` is
  modelled by the ASCII `Char.toLower`, faithful here because the non-ASCII
  letters in the data are already lower-case.
-/

namespace PollaChampions

/-- Character class kept by `norm` (source line 73): Python word characters. -/
def wordChar (c : Char) : Bool :=
  c.isAlphanum || c == '_' || decide (127 < c.toNat)

/-- Embedding of `norm` (source lines 72-73): `re.sub(r"\W+", "", s).lower()`,
as a list of characters. -/
def normL (s : String) : List Char :=
  (s.data.filter wordChar).map Char.toLower

/-- `isPrefixC x y` is true when `x` is a prefix of `y`. -/
def isPrefixC : List Char → List Char → Bool
  | [], _ => true
  | _ :: _, [] => false
  | a :: as, b :: bs => a == b && isPrefixC as bs

/-- `hasSub x y` is true when `x` occurs contiguously inside `y`: the Python
substring test `x in y` (the empty string occurs in everything). -/
def hasSub (x : List Char) : List Char → Bool
  | [] => isPrefixC x []
  | b :: bs => isPrefixC x (b :: bs) || hasSub x bs

/-- The test of source line 81: `n in norm(c) or norm(c) in n` with
`n = norm(name)`. -/
def hitB (name c : String) : Bool :=
  hasSub (normL name) (normL c) || hasSub (normL c) (normL name)

/-- One step of the scan performed by `rapidfuzz.process.extractOne`: keep
the current best scored choice, replacing it only on a strictly better score
(on ties the earlier choice is kept). -/
def extractStep (scorer : String → String → Nat) (name : String)
    (acc : Option (String × Nat)) (c : String) : Option (String × Nat) :=
  let s := scorer name c
  match acc with
  | none => some (c, s)
  | some (b, bs) => if bs < s then some (c, s) else some (b, bs)

/-- Embedding of `rapidfuzz.process.extractOne(name, choices, scorer=...)`
as called on source line 84: no `score_cutoff` is passed, so every choice
qualifies and the first choice attaining the maximal score is returned
(`None` only for an empty choice list). The index component of the rapidfuzz
result triple is dropped (the source discards it). -/
def extractOne (scorer : String → String → Nat) (name : String)
    (choices : List String) : Option (String × Nat) :=
  choices.foldl (extractStep scorer name) none

/-- Embedding of `best_match` (source lines 76-88). `proc` models the module
global `process` (`none` when rapidfuzz is unavailable); in the library
branch the scorer stands for `fuzz.token_sort_ratio`. The `cutoff` parameter
is accepted but never read, exactly as in the source. -/
def best_match (proc : Option (String → String → Nat)) (name : String)
    (choices : List String) (cutoff : Nat) : Option String × Nat :=
  match proc with
  | none =>
    match choices.find? (fun c => hitB name c) with
    | some c => (some c, 100)
    | none => (none, 0)
  | some scorer =>
    match extractOne scorer name choices with
    | some (candidate, score) => (some candidate, score)
    | none => (none, 0)

/-- One row update of the standard longest-common-subsequence dynamic
program: given the previous row split as `diag :: ps` and the current row's
last value `cur`, produce the rest of the current row along `y`. -/
def lcsRowAux (a : Char) : List Char → List Nat → Nat → Nat → List Nat
  | [], _, _, _ => []
  | _ :: _, [], _, _ => []
  | b :: ys, p :: ps, diag, cur =>
    let v := if a == b then diag + 1 else max p cur
    v :: lcsRowAux a ys ps p v

/-- Length of a longest common subsequence of two character lists. -/
def lcsLen (x y : List Char) : Nat :=
  let final := x.foldl
    (fun prev a =>
      match prev with
      | [] => []
      | p0 :: ps => 0 :: lcsRowAux a y ps p0 0)
    (List.replicate (y.length + 1) 0)
  (final.getLast?).getD 0

/-- Modelled from the spec: the similarity metric of the library branch,
`rapidfuzz.fuzz.token_sort_ratio`, is an external dependency whose code is
not part of this repository. Spec §4.1 step 2 describes it: "Exact
normalized equality scores 100. Otherwise use a string-similarity metric
defined as: edit-distance-based ratio over the normalized forms, scaled to
0-100 (... e.g., Levenshtein ratio, token-sort ratio, or
longest-common-subsequence ratio — the exact metric is not load-bearing)".
We take the longest-common-subsequence (indel) ratio
`200 * lcs / (|x| + |y|)`, truncated to an integer as `int(score)` does on
source line 87. -/
def specScore (a b : String) : Nat :=
  let x := normL a
  let y := normL b
  if x = y then 100
  else (200 * lcsLen x y) / (x.length + y.length)

/-- The degraded-mode `best_match` exactly as `calcular_ranking` invokes it
on source line 249: default `cutoff = 60`, module global `process = None`. -/
def bmSub (p : String) (cs : List String) : Option String × Nat :=
  best_match none p cs 60

/-- Per-team resolution state of one iteration of the inner loop of
`calcular_ranking` (source lines 245-258), keeping the loop variables
`best`, `score`, `pts` and `detalle` next to the input label. -/
structure TeamEntry where
  label : String
  resolved : Option String
  score : Nat
  pts : Int
  detalle : String
deriving DecidableEq

/-- One row appended by `calcular_ranking` (source lines 261-268). The
dataframe columns are `jugador`, `e1.detalle`, `e2.detalle`, `totalPts`. -/
structure Row where
  jugador : String
  e1 : TeamEntry
  e2 : TeamEntry
  totalPts : Int
deriving DecidableEq

/-- The probe list of source line 246: `posibles = [eq] + ALIASES.get(eq, [])`. -/
def probesOf (aliases : List (String × List String)) (q : String) : List String :=
  q :: ((aliases.lookup q).getD [])

/-- The accumulator loop of source lines 247-251: `best, score = None, 0`,
then for each probe `p`, `candidate, s = best_match(p, official_names)` and
`if s > score: best, score = candidate, s`. -/
def resolveLoop (proc : Option (String → String → Nat)) (officials : List String) :
    List String → Option String × Nat → Option String × Nat
  | [], acc => acc
  | p :: ps, acc =>
    let r := best_match proc p officials 60
    resolveLoop proc officials ps (if acc.2 < r.2 then r else acc)

/-- Resolution of one team label inside `calcular_ranking`
(source lines 246-251). -/
def resolveLabel (proc : Option (String → String → Nat))
    (aliases : List (String × List String)) (q : String)
    (officials : List String) : Option String × Nat :=
  resolveLoop proc officials (probesOf aliases q) (none, 0)

/-- Body of the inner loop of `calcular_ranking` for one team label
(source lines 246-254): `pts = lookup.get(best, 0) if best else 0` and
`detalle = f"{best}: {pts} pts" if best else f"{eq}: ❌"`. The points
lookup takes the `Pts` value of the first standings row whose `Team` equals
the resolved name, as the source's dict comprehension does (line 236-239). -/
def procTeam (proc : Option (String → String → Nat))
    (aliases : List (String × List String)) (officials : List String)
    (standings : List (String × Int)) (label : String) : TeamEntry :=
  match resolveLabel proc aliases label officials with
  | (some b, score) =>
    let pts : Int := (standings.lookup b).getD 0
    ⟨label, some b, score, pts, b ++ ": " ++ toString pts ++ " pts"⟩
  | (none, score) => ⟨label, none, score, 0, label ++ ": ❌"⟩

/-- Correction notes appended for one team label (source lines 255-258):
`if best and score < 100` a rename note, `elif not best` a not-found note. -/
def teamCorrections (e : TeamEntry) : List String :=
  match e.resolved with
  | some b =>
    if e.score < 100 then
      ["\x27" ++ e.label ++ "\x27 → \x27" ++ b ++ "\x27 (" ++ toString e.score ++ "%)"]
    else []
  | none => ["No encontrado: " ++ e.label]

/-- One iteration of the outer loop of `calcular_ranking` (source lines
242-268). The unpacking `eq1, eq2 = equipos` raises `ValueError` unless the
label list has exactly two entries; `total = found[0][1] + found[1][1]`. -/
def procPlayer (proc : Option (String → String → Nat))
    (aliases : List (String × List String)) (officials : List String)
    (standings : List (String × Int)) (jugador : String)
    (equipos : List String) : Except String (Row × List String) :=
  match equipos with
  | [e1, e2] =>
    let t1 := procTeam proc aliases officials standings e1
    let t2 := procTeam proc aliases officials standings e2
    Except.ok (⟨jugador, t1, t2, t1.pts + t2.pts⟩,
      teamCorrections t1 ++ teamCorrections t2)
  | _ => Except.error ("ValueError: not enough values to unpack for " ++ jugador)

/-- The outer loop of `calcular_ranking` over the participants in insertion
order; an exception in any iteration propagates and discards everything. -/
def calcRows (proc : Option (String → String → Nat))
    (aliases : List (String × List String)) (officials : List String)
    (standings : List (String × Int)) :
    List (String × List String) → Except String (List Row × List String)
  | [] => Except.ok ([], [])
  | (j, eqs) :: rest =>
    match procPlayer proc aliases officials standings j eqs with
    | Except.error e => Except.error e
    | Except.ok (r, cs) =>
      match calcRows proc aliases officials standings rest with
      | Except.error e => Except.error e
      | Except.ok (rs, cs2) => Except.ok (r :: rs, cs ++ cs2)

/-- Model of `pd.DataFrame(rows).sort_values("Total Pts", ascending=False)`
(source line 270). For `ascending=False` pandas computes a stable ascending
argsort of the key column (numpy's introsort runs plain insertion sort at
these sizes, which is stable) and then reverses the whole index order, so
rows with equal totals come out in reversed insertion order. -/
def sortDesc (rows : List Row) : List Row :=
  (List.insertionSort (fun a b => a.totalPts ≤ b.totalPts) rows).reverse

/-- Embedding of `calcular_ranking` (source lines 234-271). When the
participant dict is empty the rows list is empty, `pd.DataFrame([])` has no
columns at all, and `sort_values("Total Pts")` raises `KeyError`; that
failure is modelled by the `[]` branch. -/
def calcular_ranking (proc : Option (String → String → Nat))
    (aliases : List (String × List String)) (standings : List (String × Int))
    (jugadores : List (String × List String)) :
    Except String (List Row × List String) :=
  match calcRows proc aliases (standings.map Prod.fst) standings jugadores with
  | Except.error e => Except.error e
  | Except.ok (rows, corrections) =>
    match rows with
    | [] => Except.error "KeyError: Total Pts"
    | _ :: _ => Except.ok (sortDesc rows, corrections)

/-- `true` exactly on `Except.ok` results. -/
def isOkE {ε α : Type} : Except ε α → Bool
  | Except.ok _ => true
  | Except.error _ => false

/-- The participant configuration `JUGADORES` (source lines 41-52). -/
def JUGADORES : List (String × List String) :=
  [("Daniela", ["Napoli", "Paris Saint-Germain"]),
   ("Carlos", ["Bayern München", "Inter"]),
   ("Andrés", ["Atlético de Madrid", "Juventus"]),
   ("Bryan", ["Marseille", "Newcastle United"]),
   ("Nicolás", ["Chelsea", "Tottenham Hotspur"]),
   ("Diego", ["Borussia Dortmund", "Atalanta"]),
   ("Lina", ["Manchester City", "Galatasaray"]),
   ("Felipe", ["Benfica", "Real Madrid"]),
   ("Giovany", ["Arsenal", "Liverpool"]),
   ("Renzo", ["Barcelona", "Eintracht Frankfurt"])]

/-- The alias table `ALIASES` (source lines 55-67). -/
def ALIASES : List (String × List String) :=
  [("Inter", ["FC Internazionale Milano", "Internazionale", "Inter Milan"]),
   ("Marseille", ["Olympique de Marseille", "OM"]),
   ("Benfica", ["SL Benfica", "S.L. Benfica"]),
   ("Bayern München", ["FC Bayern München", "Bayern Munich"]),
   ("Paris Saint-Germain", ["Paris Saint Germain", "PSG"]),
   ("Atlético de Madrid", ["Atletico Madrid"]),
   ("Tottenham Hotspur", ["Tottenham", "Spurs"]),
   ("Manchester City", ["Man City", "Manchester City FC"]),
   ("Real Madrid", ["Real Madrid CF"]),
   ("Arsenal", ["Arsenal FC"]),
   ("Juventus", ["Juventus FC"])]

/-- Specification-side rendering of the degraded mode as the amended C6
claim words it: a hit is substring containment in either direction over
normalized forms, a hit scores 100 and a miss scores 0, and among several
hitting candidates the first one in list order is returned. -/
def degradedSpec (q : String) (choices : List String) : Option String × Nat :=
  match (choices.filter (fun c => hitB q c)).head? with
  | some c => (some c, 100)
  | none => (none, 0)

/-! ### Basic facts about the substring test and the degraded matcher -/

theorem isPrefixC_self : ∀ x : List Char, isPrefixC x x = true
  | [] => rfl
  | a :: as => by simp [isPrefixC, isPrefixC_self as]

theorem hasSub_self (x : List Char) : hasSub x x = true := by
  cases x with
  | nil => rfl
  | cons b bs =>
    show (isPrefixC (b :: bs) (b :: bs) || hasSub (b :: bs) bs) = true
    rw [isPrefixC_self]
    exact Bool.true_or _

theorem hasSub_nil_left (y : List Char) : hasSub [] y = true := by
  cases y with
  | nil => rfl
  | cons b bs =>
    show (isPrefixC [] (b :: bs) || hasSub [] bs) = true
    exact Bool.true_or _

theorem hitB_of_normEq {q c : String} (h : normL c = normL q) : hitB q c = true := by
  unfold hitB
  rw [h, hasSub_self]
  rfl

theorem find?_eq_filter_head? (p : α → Bool) : ∀ l : List α, l.find? p = (l.filter p).head?
  | [] => rfl
  | a :: as => by
    by_cases h : p a = true
    · rw [List.find?_cons_of_pos _ h, List.filter_cons_of_pos h]
      rfl
    · have h2 : ¬ p a = true := h
      rw [List.find?_cons_of_neg _ h2, List.filter_cons_of_neg h2]
      exact find?_eq_filter_head? p as

theorem foldl_extractStep_some (scorer : String → String → Nat) (name : String) :
    ∀ (l : List String) (b : String × Nat),
      (l.foldl (extractStep scorer name) (some b)).isSome = true
  | [], _ => rfl
  | c :: cs, b => by
    rw [List.foldl_cons]
    have hstep : ∃ b2, extractStep scorer name (some b) c = some b2 := by
      obtain ⟨bb, bs⟩ := b
      unfold extractStep
      by_cases hlt : bs < scorer name c <;> simp [hlt]
    obtain ⟨b2, hb2⟩ := hstep
    rw [hb2]
    exact foldl_extractStep_some scorer name cs b2

theorem extractOne_cons_isSome (scorer : String → String → Nat) (name c : String)
    (cs : List String) : (extractOne scorer name (c :: cs)).isSome = true := by
  unfold extractOne
  rw [List.foldl_cons]
  exact foldl_extractStep_some scorer name cs (c, scorer name c)

/-- Case analysis of the degraded-mode `best_match` as `calcular_ranking`
invokes it: either no candidate has a normalized substring relation with the
probe and the result is `(none, 0)`, or the result is some hitting candidate
with score 100. -/
theorem bmSub_cases (p : String) (cs : List String) :
    (bmSub p cs = (none, 0) ∧ ∀ c ∈ cs, hitB p c = false) ∨
    (∃ c ∈ cs, hitB p c = true ∧ bmSub p cs = (some c, 100)) := by
  have hdef : bmSub p cs =
      (match cs.find? (fun c => hitB p c) with
        | some c => (some c, 100)
        | none => (none, 0)) := rfl
  cases h : cs.find? (fun c => hitB p c) with
  | none =>
    left
    rw [hdef, h]
    exact ⟨rfl, fun c hc => by simpa using List.find?_eq_none.mp h c hc⟩
  | some c =>
    right
    exact ⟨c, List.mem_of_find?_eq_some h,
      by simpa using List.find?_some h, by rw [hdef, h]⟩

/-! ### Claims C9, C10, C6, C3, C1: the resolver `best_match` -/

/-- C9: for every query and threshold, `best_match` on an empty candidate
list returns `(None, 0)`, in the similarity-library mode (any scorer) and in
the degraded substring mode alike. -/
theorem C9_empty_candidates (name : String) (t : Nat) :
    best_match none name [] t = (none, 0) ∧
    ∀ scorer : String → String → Nat, best_match (some scorer) name [] t = (none, 0) :=
  ⟨rfl, fun _ => rfl⟩

theorem C9_empty_candidates_witness :
    best_match none "Inter" [] 60 = (none, 0) ∧
    ∀ scorer : String → String → Nat, best_match (some scorer) "Inter" [] 60 = (none, 0) :=
  C9_empty_candidates "Inter" 60

/-- C10: in degraded mode, the empty query normalizes to the empty string,
which is a substring of every candidate, so `best_match` returns the first
candidate of a non-empty list with score 100 — never unresolved. -/
theorem C10_empty_query (c : String) (cs : List String) (t : Nat) :
    best_match none "" (c :: cs) t = (some c, 100) := by
  unfold best_match
  have h : hitB "" c = true := by
    unfold hitB
    have hn : normL "" = [] := rfl
    rw [hn]
    simp [hasSub_nil_left]
  simp [List.find?_cons, h]

theorem C10_empty_query_witness :
    best_match none "" ("Real Madrid" :: ["Liverpool"]) 60 = (some "Real Madrid", 100) :=
  C10_empty_query "Real Madrid" ["Liverpool"] 60

/-- C6 counterexample: in degraded mode with candidates
`["Internazionale", "Inter"]` and query `"Inter"`, both candidates hit, the
shorter candidate is `"Inter"`, yet `best_match` returns the longer
`"Internazionale"` — the tie is broken by list order, not by shortest
candidate string. -/
theorem C6_counterexample :
    best_match none "Inter" ["Internazionale", "Inter"] 60 = (some "Internazionale", 100) ∧
    hitB "Inter" "Internazionale" = true ∧ hitB "Inter" "Inter" = true ∧
    String.length "Inter" < String.length "Internazionale" ∧
    ("Internazionale" : String) ≠ "Inter" :=
  ⟨rfl, by decide, by decide, by decide, by decide⟩

/-- C6 amended: in degraded mode `best_match` is substring containment in
either direction over normalized forms, a hit scores 100 and a miss scores
0, and among several hitting candidates the FIRST ONE IN LIST ORDER is
returned (not the shortest string). Stated as equality with the
specification-side rendering `degradedSpec`. -/
theorem C6_amended (q : String) (choices : List String) (t : Nat) :
    best_match none q choices t = degradedSpec q choices := by
  unfold best_match degradedSpec
  rw [find?_eq_filter_head?]

theorem C6_amended_witness :
    best_match none "Inter" ["Internazionale", "Inter"] 60 =
      degradedSpec "Inter" ["Internazionale", "Inter"] :=
  C6_amended "Inter" ["Internazionale", "Inter"] 60

/-- C3 counterexample: the query `"b"` is normalized-equal to the candidate
`"b"` of the list `["ab", "b"]`, the threshold is 60 ≤ 100, yet `best_match`
in degraded mode returns `"ab"` (the first candidate in substring relation),
not the normalized-equal candidate `"b"`. -/
theorem C3_counterexample :
    normL "b" = normL "b" ∧ "b" ∈ ["ab", "b"] ∧ (60 : Nat) ≤ 100 ∧
    best_match none "b" ["ab", "b"] 60 = (some "ab", 100) ∧
    (some "ab" : Option String) ≠ some "b" :=
  ⟨rfl, by decide, by decide, rfl, by decide⟩

/-- C3 amended: in degraded mode, when some candidate is normalized-equal to
the query, `best_match` does return a match with score exactly 100 for any
threshold ≤ 100 — but the returned candidate is the first in list order
with a normalized substring relation, not necessarily the equal one. -/
theorem C3_amended (q : String) (choices : List String) (c : String) (t : Nat)
    (hc : c ∈ choices) (heq : normL c = normL q) (ht : t ≤ 100) :
    (best_match none q choices t).2 = 100 ∧ (best_match none q choices t).1 ≠ none := by
  unfold best_match
  cases hfind : choices.find? (fun x => hitB q x) with
  | none =>
    exfalso
    have := List.find?_eq_none.mp hfind c hc
    simp [hitB_of_normEq heq] at this
  | some d => exact ⟨rfl, by simp⟩

theorem C3_amended_witness :
    (best_match none "realmadrid" ["Real Madrid"] 60).2 = 100 ∧
    (best_match none "realmadrid" ["Real Madrid"] 60).1 ≠ none :=
  C3_amended "realmadrid" ["Real Madrid"] "Real Madrid" 60 (by decide)
    (by decide) (by decide)

/-- C1 counterexample: in the similarity-library mode, the single
(probe, candidate) pair `("xyz", "abc")` scores 0, strictly below the
threshold 60, yet `best_match` returns `(some "abc", 0)` instead of
`(None, 0)`: the `cutoff` parameter is never used, and `extractOne` is
called without a score cutoff. -/
theorem C1_counterexample :
    specScore "xyz" "abc" < 60 ∧
    best_match (some specScore) "xyz" ["abc"] 60 = (some "abc", 0) :=
  ⟨by decide, rfl⟩

/-- C1 amended: the threshold property holds only in degraded mode, where
every pair scores 0 or 100: if no candidate hits (so no pair reaches any
threshold t ≥ 1) the result is `(None, 0)`. In the similarity-library mode
the cutoff is ignored: for any scorer and any non-empty candidate list,
`best_match` returns some candidate, whatever the scores. -/
theorem C1_amended (name : String) (choices : List String) (t : Nat)
    (ht : 1 ≤ t) (h : ∀ c ∈ choices, hitB name c = false) :
    best_match none name choices t = (none, 0) ∧
    ∀ (scorer : String → String → Nat) (c : String) (cs : List String),
      (best_match (some scorer) name (c :: cs) t).1.isSome = true := by
  constructor
  · unfold best_match
    have hfind : choices.find? (fun c => hitB name c) = none :=
      List.find?_eq_none.mpr (fun x hx => by simp [h x hx])
    rw [hfind]
  · intro scorer c cs
    have hdef : best_match (some scorer) name (c :: cs) t =
        (match extractOne scorer name (c :: cs) with
          | some (candidate, score) => (some candidate, score)
          | none => (none, 0)) := rfl
    rw [hdef]
    cases hx : extractOne scorer name (c :: cs) with
    | none =>
      have hs := extractOne_cons_isSome scorer name c cs
      rw [hx] at hs
      simp at hs
    | some p =>
      obtain ⟨cand, sc⟩ := p
      rfl

theorem C1_amended_witness :
    (best_match none "xyz" ["abc"] 60 = (none, 0) ∧
      ∀ (scorer : String → String → Nat) (c : String) (cs : List String),
        (best_match (some scorer) "xyz" (c :: cs) 60).1.isSome = true) :=
  C1_amended "xyz" ["abc"] 60 (by decide) (by decide)

/-! ### The probe loop of `calcular_ranking` in degraded mode -/

/-- Accumulator invariant of the probe loop (source lines 247-251) in
degraded mode: the running `(best, score)` pair is either the initial
`(None, 0)` or some hitting candidate from the official list at score 100,
reached through some probe in `S`. -/
theorem resolveLoop_invar (officials S : List String) :
    ∀ (probes : List String), (∀ p ∈ probes, p ∈ S) →
      ∀ acc : Option String × Nat,
        (acc = (none, 0) ∨
          ∃ c ∈ officials, ∃ p ∈ S, hitB p c = true ∧ acc = (some c, 100)) →
        (resolveLoop none officials probes acc = (none, 0) ∨
          ∃ c ∈ officials, ∃ p ∈ S, hitB p c = true ∧
            resolveLoop none officials probes acc = (some c, 100))
  | [], _, acc, hacc => by
    have hnil : resolveLoop none officials [] acc = acc := rfl
    rw [hnil]
    exact hacc
  | p :: ps, hsub, acc, hacc => by
    have hstep : resolveLoop none officials (p :: ps) acc =
        resolveLoop none officials ps
          (if acc.2 < (best_match none p officials 60).2
            then best_match none p officials 60 else acc) := rfl
    rw [hstep]
    have hsub2 : ∀ q ∈ ps, q ∈ S := fun q hq => hsub q (List.mem_cons_of_mem p hq)
    have hp : p ∈ S := hsub p (List.mem_cons_self p ps)
    cases bmSub_cases p officials with
    | inl hno =>
      have hb : best_match none p officials 60 = (none, 0) := hno.1
      rw [hb]
      split_ifs with hlt
      · exact absurd hlt (by simp)
      · exact resolveLoop_invar officials S ps hsub2 acc hacc
    | inr hyes =>
      obtain ⟨c, hcmem, hhit, hbm⟩ := hyes
      have hb : best_match none p officials 60 = (some c, 100) := hbm
      rw [hb]
      split_ifs with hlt
      · exact resolveLoop_invar officials S ps hsub2 _
          (Or.inr ⟨c, hcmem, p, hp, hhit, rfl⟩)
      · exact resolveLoop_invar officials S ps hsub2 acc hacc

/-- If some remaining probe hits some candidate (or the accumulator already
carries score 100), the probe loop ends with score 100. -/
theorem resolveLoop_hits (officials : List String) :
    ∀ (probes : List String) (acc : Option String × Nat), acc.2 ≤ 100 →
      (acc.2 = 100 ∨ ∃ p ∈ probes, ∃ c ∈ officials, hitB p c = true) →
      (resolveLoop none officials probes acc).2 = 100
  | [], acc, _, hyp => by
    cases hyp with
    | inl h => exact h
    | inr h =>
      obtain ⟨p, hp, _⟩ := h
      exact absurd hp (List.not_mem_nil p)
  | p :: ps, acc, hle, hyp => by
    have hstep : resolveLoop none officials (p :: ps) acc =
        resolveLoop none officials ps
          (if acc.2 < (best_match none p officials 60).2
            then best_match none p officials 60 else acc) := rfl
    rw [hstep]
    have hr : (best_match none p officials 60).2 ≤ 100 := by
      cases bmSub_cases p officials with
      | inl h =>
        have hb : best_match none p officials 60 = (none, 0) := h.1
        rw [hb]
        exact Nat.zero_le 100
      | inr h =>
        obtain ⟨c, _, _, hb0⟩ := h
        have hb : best_match none p officials 60 = (some c, 100) := hb0
        rw [hb]
    have hacc2 : (if acc.2 < (best_match none p officials 60).2
        then best_match none p officials 60 else acc).2 ≤ 100 := by
      split_ifs with hlt
      · exact hr
      · exact hle
    cases hyp with
    | inl h100 =>
      have hnot : ¬ acc.2 < (best_match none p officials 60).2 := by
        rw [h100]
        exact fun hcon => absurd (lt_of_lt_of_le hcon hr) (lt_irrefl 100)
      rw [if_neg hnot]
      exact resolveLoop_hits officials ps acc hle (Or.inl h100)
    | inr hex =>
      obtain ⟨q, hq, c, hc, hhit⟩ := hex
      cases List.mem_cons.mp hq with
      | inl hqp =>
        subst hqp
        cases bmSub_cases q officials with
        | inl h =>
          have := h.2 c hc
          rw [hhit] at this
          exact absurd this (by simp)
        | inr h =>
          obtain ⟨c2, hc2, hhit2, hb0⟩ := h
          have hb : best_match none q officials 60 = (some c2, 100) := hb0
          rw [hb]
          split_ifs with hlt
          · exact resolveLoop_hits officials ps _ Nat.le.refl (Or.inl rfl)
          · have h100 : acc.2 = 100 := Nat.le_antisymm hle (Nat.not_lt.mp hlt)
            exact resolveLoop_hits officials ps acc hle (Or.inl h100)
      | inr hqtail =>
        exact resolveLoop_hits officials ps _ hacc2 (Or.inr ⟨q, hqtail, c, hc, hhit⟩)

/-- C7: in degraded mode, the per-label resolution of `calcular_ranking`
scores every probe of `{query} ∪ aliases(query)` against every candidate
and its result attains the maximum pair score: the returned score is 100
exactly when some (probe, candidate) pair hits; any returned candidate is
an official candidate hitting through some probe (at the maximal score
100); otherwise the result is `(None, 0)`. In particular the label
`"Inter"` with candidates `["FC Internazionale Milano"]` and alias map
`{"Inter": ["FC Internazionale Milano"]}` (default threshold 60 in place)
resolves to `("FC Internazionale Milano", 100)`, not unresolved — in the
degraded mode and with the spec-modelled similarity scorer alike. -/
theorem C7_pair_maximum (aliases : List (String × List String)) (q : String)
    (officials : List String) :
    ((resolveLabel none aliases q officials).2 = 100 ↔
      ∃ p ∈ probesOf aliases q, ∃ c ∈ officials, hitB p c = true) ∧
    (∀ c : String, (resolveLabel none aliases q officials).1 = some c →
      c ∈ officials ∧ (∃ p ∈ probesOf aliases q, hitB p c = true) ∧
      (resolveLabel none aliases q officials).2 = 100) ∧
    ((resolveLabel none aliases q officials).2 ≠ 100 →
      resolveLabel none aliases q officials = (none, 0)) ∧
    resolveLabel none [("Inter", ["FC Internazionale Milano"])] "Inter"
      ["FC Internazionale Milano"] = (some "FC Internazionale Milano", 100) ∧
    resolveLabel (some specScore) [("Inter", ["FC Internazionale Milano"])] "Inter"
      ["FC Internazionale Milano"] = (some "FC Internazionale Milano", 100) := by
  unfold resolveLabel
  have hinv := resolveLoop_invar officials (probesOf aliases q) (probesOf aliases q)
    (fun _ hp => hp) (none, 0) (Or.inl rfl)
  refine ⟨⟨?_, ?_⟩, ?_, ?_, rfl, rfl⟩
  · intro h100
    cases hinv with
    | inl heq =>
      rw [heq] at h100
      exact absurd h100 (by simp)
    | inr hcase =>
      obtain ⟨c, hc, p, hp, hhit, _⟩ := hcase
      exact ⟨p, hp, c, hc, hhit⟩
  · intro hex
    exact resolveLoop_hits officials (probesOf aliases q) (none, 0)
      (Nat.zero_le 100) (Or.inr hex)
  · intro c hc1
    cases hinv with
    | inl heq =>
      rw [heq] at hc1
      exact absurd hc1 (by simp)
    | inr hcase =>
      obtain ⟨c2, hc2mem, p, hp, hhit, heq⟩ := hcase
      rw [heq] at hc1
      have hcc : c2 = c := by
        simpa using hc1
      subst hcc
      exact ⟨hc2mem, ⟨p, hp, hhit⟩, by rw [heq]⟩
  · intro hne
    cases hinv with
    | inl heq => exact heq
    | inr hcase =>
      obtain ⟨c2, _, _, _, _, heq⟩ := hcase
      rw [heq] at hne
      exact absurd rfl hne

theorem C7_pair_maximum_witness :
    ((resolveLabel none [] "Inter" ["FC Internazionale Milano"]).2 = 100 ↔
      ∃ p ∈ probesOf [] "Inter", ∃ c ∈ ["FC Internazionale Milano"], hitB p c = true) ∧
    (∀ c : String,
      (resolveLabel none [] "Inter" ["FC Internazionale Milano"]).1 = some c →
      c ∈ ["FC Internazionale Milano"] ∧
      (∃ p ∈ probesOf [] "Inter", hitB p c = true) ∧
      (resolveLabel none [] "Inter" ["FC Internazionale Milano"]).2 = 100) ∧
    ((resolveLabel none [] "Inter" ["FC Internazionale Milano"]).2 ≠ 100 →
      resolveLabel none [] "Inter" ["FC Internazionale Milano"] = (none, 0)) ∧
    resolveLabel none [("Inter", ["FC Internazionale Milano"])] "Inter"
      ["FC Internazionale Milano"] = (some "FC Internazionale Milano", 100) ∧
    resolveLabel (some specScore) [("Inter", ["FC Internazionale Milano"])] "Inter"
      ["FC Internazionale Milano"] = (some "FC Internazionale Milano", 100) :=
  C7_pair_maximum [] "Inter" ["FC Internazionale Milano"]

/-! ### Sorting and the aggregator invariants -/

theorem sortDesc_sorted (rows : List Row) :
    (sortDesc rows).Pairwise (fun a b => b.totalPts ≤ a.totalPts) := by
  unfold sortDesc
  rw [List.pairwise_reverse]
  haveI : IsTotal Row (fun a b => a.totalPts ≤ b.totalPts) :=
    ⟨fun a b => le_total _ _⟩
  haveI : IsTrans Row (fun a b => a.totalPts ≤ b.totalPts) :=
    ⟨fun _ _ _ h1 h2 => le_trans h1 h2⟩
  exact List.sorted_insertionSort _ rows

theorem mem_sortDesc {r : Row} {rows : List Row} : r ∈ sortDesc rows ↔ r ∈ rows := by
  unfold sortDesc
  rw [List.mem_reverse, List.mem_insertionSort]

theorem procTeam_unresolved (proc : Option (String → String → Nat))
    (aliases : List (String × List String)) (officials : List String)
    (standings : List (String × Int)) (label : String)
    (h : (procTeam proc aliases officials standings label).resolved = none) :
    (procTeam proc aliases officials standings label).pts = 0 := by
  unfold procTeam at h ⊢
  cases hr : resolveLabel proc aliases label officials with
  | mk fst snd =>
    cases fst with
    | none => rfl
    | some b =>
      rw [hr] at h
      simp at h

theorem procPlayer_ok (proc : Option (String → String → Nat))
    (aliases : List (String × List String)) (officials : List String)
    (standings : List (String × Int)) (j : String) (eqs : List String)
    (r : Row) (cs : List String)
    (h : procPlayer proc aliases officials standings j eqs = Except.ok (r, cs)) :
    r.totalPts = r.e1.pts + r.e2.pts ∧
    (r.e1.resolved = none → r.e1.pts = 0) ∧
    (r.e2.resolved = none → r.e2.pts = 0) := by
  cases eqs with
  | nil => exact Except.noConfusion h
  | cons a t1 =>
    cases t1 with
    | nil => exact Except.noConfusion h
    | cons b t2 =>
      cases t2 with
      | cons c t3 => exact Except.noConfusion h
      | nil =>
        have h' : Except.ok
            ((⟨j, procTeam proc aliases officials standings a,
                procTeam proc aliases officials standings b,
                (procTeam proc aliases officials standings a).pts +
                  (procTeam proc aliases officials standings b).pts⟩ : Row),
              teamCorrections (procTeam proc aliases officials standings a) ++
                teamCorrections (procTeam proc aliases officials standings b)) =
            Except.ok (r, cs) := h
        simp only [Except.ok.injEq, Prod.mk.injEq] at h'
        obtain ⟨h1, _⟩ := h'
        rw [← h1]
        exact ⟨rfl, procTeam_unresolved proc aliases officials standings a,
          procTeam_unresolved proc aliases officials standings b⟩

theorem calcRows_mem (proc : Option (String → String → Nat))
    (aliases : List (String × List String)) (officials : List String)
    (standings : List (String × Int)) :
    ∀ (js : List (String × List String)) (rows : List Row) (cor : List String),
      calcRows proc aliases officials standings js = Except.ok (rows, cor) →
      ∀ r ∈ rows,
        r.totalPts = r.e1.pts + r.e2.pts ∧
        (r.e1.resolved = none → r.e1.pts = 0) ∧
        (r.e2.resolved = none → r.e2.pts = 0)
  | [], rows, cor, h, r, hr => by
    have h' : Except.ok (([] : List Row), ([] : List String)) =
        Except.ok (rows, cor) := h
    simp only [Except.ok.injEq, Prod.mk.injEq] at h'
    obtain ⟨h1, _⟩ := h'
    rw [← h1] at hr
    exact absurd hr (List.not_mem_nil r)
  | (j, eqs) :: rest, rows, cor, h, r, hr => by
    have hstep : calcRows proc aliases officials standings ((j, eqs) :: rest) =
        (match procPlayer proc aliases officials standings j eqs with
          | Except.error e => Except.error e
          | Except.ok (r0, cs) =>
            match calcRows proc aliases officials standings rest with
            | Except.error e => Except.error e
            | Except.ok (rs, cs2) => Except.ok (r0 :: rs, cs ++ cs2)) := rfl
    rw [hstep] at h
    cases hp : procPlayer proc aliases officials standings j eqs with
    | error e =>
      rw [hp] at h
      exact Except.noConfusion h
    | ok pr =>
      obtain ⟨r0, cs⟩ := pr
      rw [hp] at h
      cases hrec : calcRows proc aliases officials standings rest with
      | error e =>
        rw [hrec] at h
        exact Except.noConfusion h
      | ok pr2 =>
        obtain ⟨rs2, cs2⟩ := pr2
        rw [hrec] at h
        simp only [Except.ok.injEq, Prod.mk.injEq] at h
        obtain ⟨h1, _⟩ := h
        rw [← h1] at hr
        cases List.mem_cons.mp hr with
        | inl hr0 =>
          subst hr0
          exact procPlayer_ok proc aliases officials standings j eqs r cs hp
        | inr htail =>
          exact calcRows_mem proc aliases officials standings rest rs2 cs2 hrec r htail

/-- C4: every row produced by `calcular_ranking` has its total equal to the
sum of the two per-team point values, and an unresolved per-team entry
(no match returned) contributes exactly 0 points. -/
theorem C4_total_invariant (proc : Option (String → String → Nat))
    (aliases : List (String × List String)) (standings : List (String × Int))
    (jugadores : List (String × List String)) (rs : List Row) (cor : List String)
    (h : calcular_ranking proc aliases standings jugadores = Except.ok (rs, cor))
    (r : Row) (hr : r ∈ rs) :
    r.totalPts = r.e1.pts + r.e2.pts ∧
    (r.e1.resolved = none → r.e1.pts = 0) ∧
    (r.e2.resolved = none → r.e2.pts = 0) := by
  unfold calcular_ranking at h
  cases hc : calcRows proc aliases (standings.map Prod.fst) standings jugadores with
  | error e =>
    rw [hc] at h
    exact Except.noConfusion h
  | ok pair =>
    obtain ⟨rows, cors⟩ := pair
    rw [hc] at h
    cases rows with
    | nil => exact Except.noConfusion h
    | cons r0 rest =>
      have h' : Except.ok (sortDesc (r0 :: rest), cors) = Except.ok (rs, cor) := h
      simp only [Except.ok.injEq, Prod.mk.injEq] at h'
      obtain ⟨h1, _⟩ := h'
      rw [← h1] at hr
      exact calcRows_mem proc aliases (standings.map Prod.fst) standings jugadores
        (r0 :: rest) cors hc r (mem_sortDesc.mp hr)

theorem C4_total_invariant_witness :
    (⟨"A", ⟨"X", some "X", 100, 5, "X: 5 pts"⟩,
        ⟨"X", some "X", 100, 5, "X: 5 pts"⟩, 10⟩ : Row).totalPts =
      (⟨"A", ⟨"X", some "X", 100, 5, "X: 5 pts"⟩,
        ⟨"X", some "X", 100, 5, "X: 5 pts"⟩, 10⟩ : Row).e1.pts +
      (⟨"A", ⟨"X", some "X", 100, 5, "X: 5 pts"⟩,
        ⟨"X", some "X", 100, 5, "X: 5 pts"⟩, 10⟩ : Row).e2.pts ∧
    ((⟨"A", ⟨"X", some "X", 100, 5, "X: 5 pts"⟩,
        ⟨"X", some "X", 100, 5, "X: 5 pts"⟩, 10⟩ : Row).e1.resolved = none →
      (⟨"A", ⟨"X", some "X", 100, 5, "X: 5 pts"⟩,
        ⟨"X", some "X", 100, 5, "X: 5 pts"⟩, 10⟩ : Row).e1.pts = 0) ∧
    ((⟨"A", ⟨"X", some "X", 100, 5, "X: 5 pts"⟩,
        ⟨"X", some "X", 100, 5, "X: 5 pts"⟩, 10⟩ : Row).e2.resolved = none →
      (⟨"A", ⟨"X", some "X", 100, 5, "X: 5 pts"⟩,
        ⟨"X", some "X", 100, 5, "X: 5 pts"⟩, 10⟩ : Row).e2.pts = 0) :=
  C4_total_invariant none [] [("X", 5)] [("A", ["X", "X"])] _ _ rfl _
    (List.mem_singleton.mpr rfl)

/-- C2 counterexample: two participants inserted in order A then B with
equal totals come out in the order B, A — reversed insertion order, not
participant id ascending (which would be A, B). -/
theorem C2_counterexample :
    (calcular_ranking none [] [("X", 5)] [("A", ["X", "X"]), ("B", ["X", "X"])]).map
        (fun out => (out.1.map Row.jugador, out.1.map Row.totalPts)) =
      Except.ok (["B", "A"], ([10, 10] : List Int)) ∧
    (["B", "A"] : List String) ≠ ["A", "B"] :=
  ⟨rfl, by decide⟩

/-- C2 amended: the output of `calcular_ranking` is sorted by total points
descending; the relative order of participants with equal totals is an
implementation artifact of the pandas descending sort (stable ascending
argsort, then reversal — i.e. reversed insertion order), not participant id
ascending. -/
theorem C2_amended (proc : Option (String → String → Nat))
    (aliases : List (String × List String)) (standings : List (String × Int))
    (jugadores : List (String × List String)) (rs : List Row) (cor : List String)
    (h : calcular_ranking proc aliases standings jugadores = Except.ok (rs, cor)) :
    rs.Pairwise (fun a b => b.totalPts ≤ a.totalPts) := by
  unfold calcular_ranking at h
  cases hc : calcRows proc aliases (standings.map Prod.fst) standings jugadores with
  | error e =>
    rw [hc] at h
    exact Except.noConfusion h
  | ok pair =>
    obtain ⟨rows, cors⟩ := pair
    rw [hc] at h
    cases rows with
    | nil => exact Except.noConfusion h
    | cons r0 rest =>
      have h' : Except.ok (sortDesc (r0 :: rest), cors) = Except.ok (rs, cor) := h
      simp only [Except.ok.injEq, Prod.mk.injEq] at h'
      obtain ⟨h1, _⟩ := h'
      rw [← h1]
      exact sortDesc_sorted (r0 :: rest)

theorem C2_amended_witness :
    ([⟨"A", ⟨"X", some "X", 100, 5, "X: 5 pts"⟩,
        ⟨"X", some "X", 100, 5, "X: 5 pts"⟩, 10⟩] : List Row).Pairwise
      (fun a b => b.totalPts ≤ a.totalPts) :=
  C2_amended none [] [("X", 5)] [("A", ["X", "X"])] _ _ rfl

/-- The outer loop succeeds on every participant list whose label lists all
have exactly two entries, producing one row per participant. -/
theorem calcRows_total (proc : Option (String → String → Nat))
    (aliases : List (String × List String)) (officials : List String)
    (standings : List (String × Int)) :
    ∀ (js : List (String × List String)),
      (∀ p ∈ js, (Prod.snd p).length = 2) →
      ∃ rows cor,
        calcRows proc aliases officials standings js = Except.ok (rows, cor) ∧
        rows.length = js.length
  | [], _ => ⟨[], [], rfl, rfl⟩
  | (j, eqs) :: rest, hp => by
    have hlen : eqs.length = 2 := hp (j, eqs) (List.mem_cons_self _ _)
    obtain ⟨rows, cor, hrec, hrl⟩ := calcRows_total proc aliases officials standings rest
      (fun p hmem => hp p (List.mem_cons_of_mem _ hmem))
    cases eqs with
    | nil =>
      simp only [List.length_nil] at hlen
      omega
    | cons a t1 =>
      cases t1 with
      | nil =>
        simp only [List.length_cons, List.length_nil] at hlen
        omega
      | cons b t2 =>
        cases t2 with
        | cons c t3 =>
          simp only [List.length_cons] at hlen
          omega
        | nil =>
          refine ⟨(⟨j, procTeam proc aliases officials standings a,
              procTeam proc aliases officials standings b,
              (procTeam proc aliases officials standings a).pts +
                (procTeam proc aliases officials standings b).pts⟩ : Row) :: rows,
            (teamCorrections (procTeam proc aliases officials standings a) ++
              teamCorrections (procTeam proc aliases officials standings b)) ++ cor,
            ?_, ?_⟩
          · have hstep : calcRows proc aliases officials standings ((j, [a, b]) :: rest) =
                (match procPlayer proc aliases officials standings j [a, b] with
                  | Except.error e => Except.error e
                  | Except.ok (r0, cs) =>
                    match calcRows proc aliases officials standings rest with
                    | Except.error e => Except.error e
                    | Except.ok (rs, cs2) => Except.ok (r0 :: rs, cs ++ cs2)) := rfl
            rw [hstep, hrec]
            rfl
          · simp only [List.length_cons, hrl]

/-- C5 counterexample: an empty participant mapping vacuously satisfies
"each participant maps to a pair of labels", yet `calcular_ranking` fails:
`pd.DataFrame([])` has no columns and `sort_values("Total Pts")` raises
`KeyError` (source line 270). -/
theorem C5_counterexample :
    calcular_ranking none [] [("X", 5)] [] = Except.error "KeyError: Total Pts" ∧
    ∀ p ∈ ([] : List (String × List String)), (Prod.snd p).length = 2 :=
  ⟨rfl, fun p hp => absurd hp (List.not_mem_nil p)⟩

/-- C5 amended: for every NON-EMPTY participant mapping in which each
participant maps to exactly two labels, `calcular_ranking` returns normally
(unresolved teams are absorbed as zero-point entries, cf. C4); with zero
participants the final pandas sort raises `KeyError` on the missing
`Total Pts` column. -/
theorem C5_amended (proc : Option (String → String → Nat))
    (aliases : List (String × List String)) (standings : List (String × Int))
    (jugadores : List (String × List String)) (hne : jugadores ≠ [])
    (hpairs : ∀ p ∈ jugadores, (Prod.snd p).length = 2) :
    isOkE (calcular_ranking proc aliases standings jugadores) = true := by
  obtain ⟨rows, cor, hc, hlen⟩ := calcRows_total proc aliases
    (standings.map Prod.fst) standings jugadores hpairs
  unfold calcular_ranking
  rw [hc]
  cases rows with
  | nil =>
    exfalso
    apply hne
    cases jugadores with
    | nil => rfl
    | cons x xs =>
      simp only [List.length_nil, List.length_cons] at hlen
      omega
  | cons r rest => rfl

theorem C5_amended_witness :
    isOkE (calcular_ranking none [] [("X", 5)] [("A", ["X", "X"])]) = true :=
  C5_amended none [] [("X", 5)] [("A", ["X", "X"])] (by simp)
    (by
      intro p hp
      simp only [List.mem_singleton] at hp
      subst hp
      rfl)

/-- C8: `calcular_ranking` is a pure function of its inputs (the module
globals `process` and `ALIASES` it reads are among the parameters of the
embedding): identical standings and identical participant mappings yield
identical outputs — same rows, same order, same correction notes. Input
mutation is ruled out by the embedding: all inputs are immutable values. -/
theorem C8_deterministic (proc : Option (String → String → Nat))
    (aliases : List (String × List String)) (s1 s2 : List (String × Int))
    (j1 j2 : List (String × List String)) (hs : s1 = s2) (hj : j1 = j2) :
    calcular_ranking proc aliases s1 j1 = calcular_ranking proc aliases s2 j2 := by
  rw [hs, hj]

theorem C8_deterministic_witness :
    calcular_ranking none ALIASES [("Napoli", 10)] JUGADORES =
      calcular_ranking none ALIASES [("Napoli", 10)] JUGADORES :=
  C8_deterministic none ALIASES [("Napoli", 10)] [("Napoli", 10)]
    JUGADORES JUGADORES rfl rfl

end PollaChampions
